import Mathlib

/-!
# poker-ai Go client (`src/client/go/poker_client.go`)

A shallow embedding of the client's command dispatcher (the input loop of `main`), of its
send path (`SetReady`, `PerformAction`, `sendJSON`), of `Disconnect` and of the receive side
(`readMessages`, `handleMessage`), followed by theorems about them.

Conventions of the embedding.

* Go `string` is `String` (the lines of standard input are taken to be text); Go `int` is
  `Int`, and the conversions that produce one (`strconv.Atoi`, `int(float64)`) are modelled
  for the 64-bit `int` of the usual platforms.
* Effects on the outside world are recorded as a list of `Event`s, in program order; a call
  of `conn.Write` is recorded whether or not the write succeeds.
* A nil-pointer panic is the result `none` of an operation that returns `Option`.
* The standard-library functions the client calls are modelled after their documented
  behaviour: `strings.HasPrefix`, `strings.Split`, `strconv.Atoi`, and `json.Unmarshal` into
  a `map[string]interface{}`.  `json.Unmarshal` into a struct is a parameter (`Env`): the
  theorems hold for every decoder.
* An inbound chunk of bytes is given by its JSON syntax tree, or `none` when it is not a valid
  JSON text.
* The goroutines are taken one at a time: each function is modelled as it runs on its own.
-/

set_option autoImplicit false

namespace Poker

/-! ## Library: `strings` -/

namespace strings

/-- Go `strings.HasPrefix(s, pre)`: `s` begins with `pre`. -/
def HasPrefix (s pre : String) : Bool :=
  pre.data.isPrefixOf s.data

/-- Pieces of a character list between occurrences of `sep`; there is always one piece more
than there are occurrences of `sep`. -/
def splitChars (sep : Char) : List Char → List (List Char)
  | [] => [[]]
  | c :: cs =>
    if c = sep then [] :: splitChars sep cs
    else
      match splitChars sep cs with
      | [] => [[c]]
      | piece :: pieces => (c :: piece) :: pieces

/-- Go `strings.Split(s, sep)` for a separator of one character, which is how `main` calls it
(`strings.Split(input, " ")`): the substrings of `s` between the separators. -/
def Split (s : String) (sep : Char) : List String :=
  (splitChars sep s.data).map String.mk

end strings

/-! ## Library: `strconv` -/

namespace strconv

/-- The two failures of `strconv`: `ErrSyntax` and `ErrRange`. -/
inductive NumError where
  | syntaxErr
  | rangeErr
  deriving DecidableEq, Repr

/-- Size of Go `int` in bits (`strconv.IntSize` on 64-bit platforms). -/
def intSize : Nat := 64

/-- Largest `uint64`. -/
def maxUint64 : Nat := 2 ^ 64 - 1

/-- Digit loop of `strconv.ParseUint(s, 10, 64)`: `n` is the value read so far.  A byte that is
not a decimal digit is a syntax error (in base 10 neither letters nor underscores are
accepted); running over `maxUint64` is a range error, reported where it happens. -/
def parseUintLoop : List Char → Nat → Except NumError Nat
  | [], n => .ok n
  | c :: cs, n =>
    if '0'.toNat ≤ c.toNat ∧ c.toNat ≤ '9'.toNat then
      let d := c.toNat - '0'.toNat
      -- `if n >= cutoff`: n*base overflows
      if n ≥ maxUint64 / 10 + 1 then .error .rangeErr
      else
        let n1 := n * 10 + d
        -- `if n1 < n || n1 > maxVal`: n+d overflows
        if n1 > maxUint64 then .error .rangeErr
        else parseUintLoop cs n1
    else .error .syntaxErr

/-- Go `strconv.ParseUint(s, 10, 64)`. -/
def ParseUint (s : List Char) : Except NumError Nat :=
  match s with
  | [] => .error .syntaxErr
  | _ => parseUintLoop s 0

/-- Go `strconv.ParseInt(s, 10, 0)`: optional sign, then `ParseUint`, then the range check
against `1 << (intSize - 1)`. -/
def ParseInt (s : List Char) : Except NumError Int :=
  match s with
  | [] => .error .syntaxErr
  | c :: cs =>
    let neg := decide (c = '-')
    let digits := if c = '+' ∨ c = '-' then cs else c :: cs
    match ParseUint digits with
    | .error e => .error e
    | .ok un =>
      let cutoff := 2 ^ (intSize - 1)
      if !neg ∧ un ≥ cutoff then .error .rangeErr
      else if neg ∧ un > cutoff then .error .rangeErr
      else .ok (if neg then -(un : Int) else (un : Int))

/-- Go `strconv.Atoi(s)`, which the library documents as `ParseInt(s, 10, 0)` converted to
`int` (its fast path for short strings computes the same result). -/
def Atoi (s : String) : Except NumError Int :=
  ParseInt s.data

end strconv

/-! ## Library: `encoding/json` and `float64` -/

/-- A finite `float64`, as sign, integer mantissa and binary exponent: its value is
`(-1)^neg * mant * 2^exp`. -/
structure Float64 where
  neg : Bool
  mant : Nat
  exp : Int
  deriving DecidableEq, Repr

/-- The zero value of `float64`. -/
def Float64.zero : Float64 := { neg := false, mant := 0, exp := 0 }

/-- Go conversion `int(f)` of a `float64` to the 64-bit `int`: the fraction is discarded
(truncation towards zero).  When the result does not fit, Go leaves the value to the
implementation; it is the parameter `overflow`. -/
def Float64.toInt (overflow : Int) (f : Float64) : Int :=
  let a : Nat := if f.exp ≥ 0 then f.mant * 2 ^ f.exp.toNat else f.mant / 2 ^ (-f.exp).toNat
  let v : Int := if f.neg then -(a : Int) else (a : Int)
  if -(2 ^ 63) ≤ v ∧ v < 2 ^ 63 then v else overflow

namespace json

/-- A JSON number as it is written. -/
inductive Number where
  /-- A literal without fraction and exponent part: an optional minus sign and digits. -/
  | int (i : Int)
  /-- A literal with a fraction or an exponent part, denoting `m * 10^e`. -/
  | real (m : Int) (e : Int)
  deriving DecidableEq, Repr

/-- Position of the highest set bit, by halving at most `fuel` times. -/
def log2Fuel : Nat → Nat → Nat
  | 0, _ => 0
  | fuel + 1, n => if n < 2 then 0 else log2Fuel fuel (n / 2) + 1

/-- Position of the highest set bit of `n` (`0` for `n = 0`). -/
def floorLog2 (n : Nat) : Nat := log2Fuel n n

/-- The `float64` nearest to the positive rational `num / den`, ties to the even mantissa, as
`strconv.ParseFloat(s, 64)` computes it: mantissa and binary exponent, with 53 bits of
precision above the subnormal range and the exponent `-1074` inside it.  `none` is the range
error of a value that rounds to infinity. -/
def roundFloat64 (num den : Nat) : Option (Nat × Int) :=
  if num = 0 then some (0, 0)
  else
    let a := floorLog2 num
    let b := floorLog2 den
    -- l = floor (log2 (num / den))
    let l : Int := if num * 2 ^ b ≥ den * 2 ^ a then (a : Int) - b else (a : Int) - b - 1
    let e : Int := max (l - 52) (-1074)
    let n := if e ≥ 0 then num else num * 2 ^ (-e).toNat
    let d := if e ≥ 0 then den * 2 ^ e.toNat else den
    let q := n / d
    let r := n % d
    let m := if 2 * r > d ∨ (2 * r = d ∧ q % 2 = 1) then q + 1 else q
    -- m * 2^e ≥ 2^1024, above the largest finite float64
    if e > 971 ∨ (e = 971 ∧ m ≥ 2 ^ 53) then none else some (m, e)

/-- The `float64` a number literal decodes to (`strconv.ParseFloat(s, 64)`), `none` when the
value is out of range. -/
def Number.toFloat64 : Number → Option Float64
  | .int i => (roundFloat64 i.natAbs 1).map fun me => ⟨decide (i < 0), me.1, me.2⟩
  | .real m e =>
    (if e ≥ 0 then roundFloat64 (m.natAbs * 10 ^ e.toNat) 1
     else roundFloat64 m.natAbs (10 ^ (-e).toNat)).map fun me => ⟨decide (m < 0), me.1, me.2⟩

end json

/-- The syntax tree of a JSON text. -/
inductive JSON where
  | null
  | bool (b : Bool)
  | num (n : json.Number)
  | str (s : String)
  | arr (items : List JSON)
  /-- An object: its members in the order of the text, repeated keys included. -/
  | obj (members : List (String × JSON))

/-- A Go value of type `interface{}` as `json.Unmarshal` produces it. -/
inductive Iface where
  | nil
  | bool (b : Bool)
  | float64 (f : Float64)
  | string (s : String)
  | slice (items : List Iface)
  /-- A `map[string]interface{}`: the entries in the order in which they were stored. -/
  | map (entries : List (String × Iface))

/-- The entry a key ends up with in a `map[string]interface{}` that was filled entry by entry:
a later entry for a key replaces an earlier one. -/
def Iface.lookup : List (String × Iface) → String → Option Iface
  | [], _ => none
  | (k, v) :: rest, key =>
    match Iface.lookup rest key with
    | some later => some later
    | none => if k = key then some v else none

/-- Go `m[key]` on a `map[string]interface{}`: a missing key gives `nil`. -/
def Iface.index (m : List (String × Iface)) (key : String) : Iface :=
  (Iface.lookup m key).getD .nil

/-- The member of a JSON object that decides the value of `key`: the last one with that key. -/
def JSON.member : List (String × JSON) → String → Option JSON
  | [], _ => none
  | (k, v) :: rest, key =>
    match JSON.member rest key with
    | some later => some later
    | none => if k = key then some v else none

/-- Go `x.(string)` with the comma-ok form: value and `ok`. -/
def Iface.assertString : Iface → String × Bool
  | .string s => (s, true)
  | _ => ("", false)

/-- Go `x.(float64)` with the comma-ok form: value and `ok`. -/
def Iface.assertFloat64 : Iface → Float64 × Bool
  | .float64 f => (f, true)
  | _ => (Float64.zero, false)

namespace json

mutual
/-- Decoding of a JSON value into an `interface{}`; `none` when `Unmarshal` reports an error
(a number out of the `float64` range). -/
def decodeValue : JSON → Option Iface
  | .null => some .nil
  | .bool b => some (.bool b)
  | .num n =>
    match n.toFloat64 with
    | some f => some (.float64 f)
    | none => none
  | .str s => some (.string s)
  | .arr items =>
    match decodeItems items with
    | some vs => some (.slice vs)
    | none => none
  | .obj members =>
    match decodeMembers members with
    | some es => some (.map es)
    | none => none
/-- Decoding of the elements of an array. -/
def decodeItems : List JSON → Option (List Iface)
  | [] => some []
  | x :: xs =>
    match decodeValue x, decodeItems xs with
    | some v, some vs => some (v :: vs)
    | _, _ => none
/-- Decoding of the members of an object. -/
def decodeMembers : List (String × JSON) → Option (List (String × Iface))
  | [] => some []
  | (k, x) :: xs =>
    match decodeValue x, decodeMembers xs with
    | some v, some es => some ((k, v) :: es)
    | _, _ => none
end

/-- Go `json.Unmarshal(msg, &msgMap)` for `msgMap map[string]interface{}`, on a message that is
a valid JSON text: an object fills the map, `null` leaves it nil (which reads as empty), any
other value is a type error; `none` stands for a non-nil error. -/
def UnmarshalMap : JSON → Option (List (String × Iface))
  | .obj members => decodeMembers members
  | .null => some []
  | _ => none

end json

/-! ## Data model -/

/-- A value stored in an outbound `map[string]interface{}`. -/
inductive FieldValue where
  | str (s : String)
  | bool (b : Bool)
  | int (i : Int)
  deriving DecidableEq, Repr

/-- An outbound message before `json.Marshal`: the entries of the Go map, in the order in which
the source writes them. -/
abbrev Message := List (String × FieldValue)

/-- Go `msg[key]` on an outbound message. -/
def Message.get (msg : Message) (key : String) : Option FieldValue :=
  (msg.find? (fun kv => kv.1 = key)).map Prod.snd

/-- What the client does to the outside world. -/
inductive Event where
  /-- A call `conn.Write(data)` where `data` is the marshalled `msg`. -/
  | write (msg : Message)
  /-- A call `conn.Close()`. -/
  | close
  /-- Text written to standard output. -/
  | print (text : String)
  /-- The send `sigChan <- syscall.SIGTERM`. -/
  | signal
  deriving DecidableEq, Repr

/-- The messages handed to `conn.Write` in a trace, in order. -/
def sent : List Event → List Message
  | [] => []
  | .write msg :: es => msg :: sent es
  | _ :: es => sent es

/-- The lines printed in a trace, in order. -/
def printed : List Event → List String
  | [] => []
  | .print text :: es => text :: printed es
  | _ :: es => printed es

/-- Number of calls of `conn.Close()` in a trace. -/
def closes : List Event → Nat
  | [] => 0
  | .close :: es => closes es + 1
  | _ :: es => closes es

/-- The transport (`net.Conn`), reduced to what decides the outcome of `Write`. -/
structure Conn where
  /-- `Close` has been called on it. -/
  closed : Bool
  /-- The error a `Write` meets on the network, if any. -/
  fault : Option String
  deriving DecidableEq, Repr

/-- Error returned by `conn.Write`, `none` for `nil`. -/
def Conn.Write (c : Conn) : Option String :=
  if c.closed then some "use of closed network connection" else c.fault

/-- Go struct `Player`. -/
structure Player where
  ID : Int
  Name : String
  Chips : Int
  IsConnected : Bool
  IsActive : Bool
  IsReady : Bool
  deriving DecidableEq, Repr

/-- Go struct `GameState`. -/
structure GameState where
  /-- The Go field `Type`. -/
  MsgType : String
  Stage : Int
  CurrentPlayer : Int
  DealerPosition : Int
  Players : List Player
  Pot : Int
  deriving DecidableEq, Repr

/-- The zero value of `GameState`, what `var gameState GameState` holds. -/
def GameState.zero : GameState :=
  { MsgType := "", Stage := 0, CurrentPlayer := 0, DealerPosition := 0, Players := [], Pot := 0 }

/-- Go struct `PokerClient` (the session).  The channel `receivedMsg`, which the program never
uses, and the mutex are left out. -/
structure PokerClient where
  /-- The connection, `none` for `nil`. -/
  conn : Option Conn
  playerID : Int
  playerName : String
  chips : Int
  privateCards : List String
  publicCards : List String
  gameState : GameState
  isConnected : Bool
  deriving DecidableEq, Repr

/-- Go `NewPokerClient(name)`. -/
def NewPokerClient (name : String) : PokerClient :=
  { conn := none, playerID := 0, playerName := name, chips := 0, privateCards := [],
    publicCards := [], gameState := GameState.zero, isConnected := false }

/-! ## Send path -/

namespace PokerClient

/-- Go `(*PokerClient).sendJSON`: marshal `msg` (which cannot fail for the maps the client
builds) and write it to the connection.  The result is the trace and the returned error;
`none` is the panic of calling `Write` on a nil connection. -/
def sendJSON (p : PokerClient) (msg : Message) : Option (List Event × Option String) :=
  match p.conn with
  | none => none
  | some c =>
    match c.Write with
    | some e => some ([Event.write msg], some ("failed to send message: " ++ e))
    | none => some ([Event.write msg], none)

/-- Go `(*PokerClient).SetReady`. -/
def SetReady (p : PokerClient) (ready : Bool) : Option (List Event × Option String) :=
  let msg : Message := [("type", .str "ready"), ("ready", .bool ready)]
  p.sendJSON msg

/-- Go `(*PokerClient).PerformAction`. -/
def PerformAction (p : PokerClient) (action : String) (amount : Int) :
    Option (List Event × Option String) :=
  let msg : Message := [("type", .str "action"), ("action", .str action)]
  let msg := if action = "raise" then msg ++ [("amount", .int amount)] else msg
  p.sendJSON msg

/-- Go `(*PokerClient).Disconnect`: the session afterwards and the trace. -/
def Disconnect (p : PokerClient) : PokerClient × List Event :=
  if !p.isConnected then (p, [])
  else
    let p1 := { p with isConnected := false }
    match p1.conn with
    | some c =>
      ({ p1 with conn := some { c with closed := true } },
        [Event.close, Event.print "Disconnected from server\n"])
    | none => (p1, [Event.print "Disconnected from server\n"])

end PokerClient

/-! ## Command dispatcher (the input goroutine of `main`) -/

/-- The tail of every command branch: `if err != nil { fmt.Printf("Error: %v\n", err) }`, then
the next iteration. -/
def reportSend (r : Option (List Event × Option String)) : Option (List Event × Bool) :=
  match r with
  | none => none
  | some (es, none) => some (es, true)
  | some (es, some e) => some (es ++ [Event.print ("Error: " ++ e ++ "\n")], true)

/-- One iteration of the `for scanner.Scan()` loop of `main` on the line `input`: the trace,
and whether the loop goes on (`false` after `break`).  `none` is a panic. -/
def mainInputStep (client : PokerClient) (input : String) : Option (List Event × Bool) :=
  if input = "quit" then some ([Event.signal], false)
  else if input = "ready" then reportSend (client.SetReady true)
  else if input = "notready" then reportSend (client.SetReady false)
  else if input = "fold" then reportSend (client.PerformAction "fold" 0)
  else if input = "check" then reportSend (client.PerformAction "check" 0)
  else if input = "call" then reportSend (client.PerformAction "call" 0)
  else if strings.HasPrefix input "raise " then
    let parts := strings.Split input ' '
    if parts.length ≠ 2 then some ([Event.print "Usage: raise <amount>\n"], true)
    else
      match strconv.Atoi (parts.getD 1 "") with
      | .error _ => some ([Event.print ("Invalid amount: " ++ parts.getD 1 "" ++ "\n")], true)
      | .ok amount => reportSend (client.PerformAction "raise" amount)
  else some ([Event.print "Unknown command. Type \x27quit\x27 to exit.\n"], true)

/-- The `for scanner.Scan()` loop of `main` over the lines read from standard input: the trace
of the whole run, `none` if an iteration panics. -/
def mainInputLoop (client : PokerClient) : List String → Option (List Event)
  | [] => some []
  | input :: rest =>
    match mainInputStep client input with
    | none => none
    | some (es, false) => some es
    | some (es, true) =>
      match mainInputLoop client rest with
      | none => none
      | some es1 => some (es ++ es1)

/-! ## Receive side -/

/-- The anonymous struct `{Type string; Cards []string}` of the card messages. -/
structure CardsMsg where
  /-- The Go field `Type`. -/
  MsgType : String
  Cards : List String
  deriving DecidableEq, Repr

/-- The anonymous struct `{Type string; Winners []int}` of the result message. -/
structure ResultMsg where
  /-- The Go field `Type`. -/
  MsgType : String
  Winners : List Int
  deriving DecidableEq, Repr

/-- The zero value of `CardsMsg`. -/
def CardsMsg.zero : CardsMsg := { MsgType := "", Cards := [] }

/-- The zero value of `ResultMsg`. -/
def ResultMsg.zero : ResultMsg := { MsgType := "", Winners := [] }

/-- What the source leaves to the toolchain: `json.Unmarshal` into the three struct types,
each taking the message and the value the destination holds before the call and returning
the destination afterwards (`none` for a non-nil error), and the result of `int(f)` for a
`float64` outside the range of `int`. -/
structure Env where
  unmarshalGameState : JSON → GameState → Option GameState
  unmarshalCards : JSON → CardsMsg → Option CardsMsg
  unmarshalResult : JSON → ResultMsg → Option ResultMsg
  intOverflow : Int

namespace PokerClient

/-- Go `(*PokerClient).handleMessage(msg)`.  The bytes `msg` are given by their JSON syntax
tree, `none` when they are not a valid JSON text.  What the function prints is left out; it
has no other effect than the new session. -/
def handleMessage (env : Env) (p : PokerClient) (msg : Option JSON) : PokerClient :=
  match msg with
  | none => p  -- "Error parsing message"
  | some text =>
    match json.UnmarshalMap text with
    | none => p  -- "Error parsing message"
    | some msgMap =>
      let (msgType, ok) := (Iface.index msgMap "type").assertString
      if !ok then p  -- "Message missing 'type' field"
      else if msgType = "welcome" then
        let (playerID, _) := (Iface.index msgMap "player_id").assertFloat64
        { p with playerID := playerID.toInt env.intOverflow }
      else if msgType = "registered" then
        let (playerID, _) := (Iface.index msgMap "player_id").assertFloat64
        let (chips, _) := (Iface.index msgMap "chips").assertFloat64
        { p with playerID := playerID.toInt env.intOverflow,
                 chips := chips.toInt env.intOverflow }
      else if msgType = "game_state" then
        match env.unmarshalGameState text GameState.zero with
        | none => p  -- "Error parsing game state"
        | some gameState => { p with gameState := gameState }
      else if msgType = "private_cards" then
        match env.unmarshalCards text CardsMsg.zero with
        | none => p  -- "Error parsing private cards"
        | some cardsMsg => { p with privateCards := cardsMsg.Cards }
      else if msgType = "public_cards" then
        match env.unmarshalCards text CardsMsg.zero with
        | none => p  -- "Error parsing public cards"
        | some cardsMsg => { p with publicCards := cardsMsg.Cards }
      else if msgType = "game_result" then
        match env.unmarshalResult text ResultMsg.zero with
        | none => p  -- "Error parsing game result"
        | some _ => p  -- "Game over. Winners: ..."
      else if msgType = "error" then
        p  -- "Error from server: ..."
      else
        p  -- "Unhandled message type: ..."

/-- The outcome of one `p.conn.Read(buffer)`. -/
inductive ReadResult where
  /-- A non-nil error. -/
  | failed
  /-- No error and `n = 0`. -/
  | nothing
  /-- No error and `n > 0`: the bytes read, given as for `handleMessage`. -/
  | bytes (msg : Option JSON)

/-- Go `(*PokerClient).readMessages` over the outcomes of the successive reads. -/
def readMessages (env : Env) (p : PokerClient) : List ReadResult → PokerClient
  | [] => p
  | r :: rest =>
    if !p.isConnected then p
    else
      match r with
      | .failed => { p with isConnected := false }
      | .nothing => readMessages env p rest
      | .bytes msg => readMessages env (handleMessage env p msg) rest

/-- The session after `handleMessage` on each message of a list, in order. -/
def handleAll (env : Env) (p : PokerClient) (msgs : List (Option JSON)) : PokerClient :=
  msgs.foldl (handleMessage env) p

end PokerClient

/-- The type tag a message carries: the string under `"type"` of a JSON object. -/
def msgTag : Option JSON → Option String
  | some (.obj members) =>
    match JSON.member members "type" with
    | some (.str s) => some s
    | _ => none
  | _ => none

/-- The tags for which `handleMessage` has a `case`. -/
def dispatchTable : List String :=
  ["welcome", "registered", "game_state", "private_cards", "public_cards", "game_result", "error"]

/-! ## A decoder for the struct types

`plainEnv` is one instance of `Env`, used to run the model on concrete messages.  It reads a
field from the last member whose key is the field's tag, leaves the field alone when there
is no such member or the member is `null`, and fails on a value of the wrong kind. -/

namespace plain

/-- An `int` field: a number without fraction and exponent part, within 64 bits. -/
def intField (members : List (String × JSON)) (key : String) (old : Int) : Option Int :=
  match JSON.member members key with
  | none => some old
  | some .null => some old
  | some (.num (.int i)) => if -(2 ^ 63) ≤ i ∧ i < 2 ^ 63 then some i else none
  | some _ => none

/-- A `string` field. -/
def stringField (members : List (String × JSON)) (key : String) (old : String) :
    Option String :=
  match JSON.member members key with
  | none => some old
  | some .null => some old
  | some (.str s) => some s
  | some _ => none

/-- A `bool` field. -/
def boolField (members : List (String × JSON)) (key : String) (old : Bool) : Option Bool :=
  match JSON.member members key with
  | none => some old
  | some .null => some old
  | some (.bool b) => some b
  | some _ => none

/-- An element of `[]Player`. -/
def player : JSON → Option Player
  | .obj ms => do
    let id ← intField ms "id" 0
    let name ← stringField ms "name" ""
    let chips ← intField ms "chips" 0
    let isConnected ← boolField ms "is_connected" false
    let isActive ← boolField ms "is_active" false
    let isReady ← boolField ms "is_ready" false
    pure { ID := id, Name := name, Chips := chips, IsConnected := isConnected,
           IsActive := isActive, IsReady := isReady }
  | .null => some { ID := 0, Name := "", Chips := 0, IsConnected := false,
                    IsActive := false, IsReady := false }
  | _ => none

/-- An element of `[]string`. -/
def stringItem : JSON → Option String
  | .str s => some s
  | .null => some ""
  | _ => none

/-- An element of `[]int`. -/
def intItem : JSON → Option Int
  | .num (.int i) => if -(2 ^ 63) ≤ i ∧ i < 2 ^ 63 then some i else none
  | .null => some 0
  | _ => none

/-- A slice field with elements read by `item`. -/
def sliceField {α : Type} (item : JSON → Option α) (members : List (String × JSON))
    (key : String) (old : List α) : Option (List α) :=
  match JSON.member members key with
  | none => some old
  | some .null => some []
  | some (.arr items) => items.mapM item
  | some _ => none

/-- Decoding into `GameState`. -/
def unmarshalGameState (text : JSON) (dst : GameState) : Option GameState :=
  match text with
  | .obj ms => do
    let type ← stringField ms "type" dst.MsgType
    let stage ← intField ms "stage" dst.Stage
    let current ← intField ms "current_player" dst.CurrentPlayer
    let dealer ← intField ms "dealer_position" dst.DealerPosition
    let players ← sliceField player ms "players" dst.Players
    let pot ← intField ms "pot" dst.Pot
    pure { MsgType := type, Stage := stage, CurrentPlayer := current,
           DealerPosition := dealer, Players := players, Pot := pot }
  | .null => some dst
  | _ => none

/-- Decoding into the struct of a card message. -/
def unmarshalCards (text : JSON) (dst : CardsMsg) : Option CardsMsg :=
  match text with
  | .obj ms => do
    let type ← stringField ms "type" dst.MsgType
    let cards ← sliceField stringItem ms "cards" dst.Cards
    pure { MsgType := type, Cards := cards }
  | .null => some dst
  | _ => none

/-- Decoding into the struct of a result message. -/
def unmarshalResult (text : JSON) (dst : ResultMsg) : Option ResultMsg :=
  match text with
  | .obj ms => do
    let type ← stringField ms "type" dst.MsgType
    let winners ← sliceField intItem ms "winners" dst.Winners
    pure { MsgType := type, Winners := winners }
  | .null => some dst
  | _ => none

end plain

/-- The decoder `plain` together with the result `-2^63` for an `int(f)` out of range. -/
def plainEnv : Env :=
  { unmarshalGameState := plain.unmarshalGameState
    unmarshalCards := plain.unmarshalCards
    unmarshalResult := plain.unmarshalResult
    intOverflow := -(2 ^ 63) }

/-! ## Vocabulary of the statements -/

/-- The value of a run of decimal digits read from the left, starting from `acc`. -/
def decimalFrom (acc : Nat) (digits : List Char) : Nat :=
  digits.foldl (fun n c => n * 10 + (c.toNat - 48)) acc

/-- Every character is one of `0` to `9`. -/
def AllDigits (digits : List Char) : Prop :=
  ∀ c ∈ digits, 48 ≤ c.toNat ∧ c.toNat ≤ 57

/-- The string `text` is an integer written in decimal, with value `v`: an optional sign
followed by one or more digits. -/
def IsIntText (text : String) (v : Int) : Prop :=
  ∃ digits : List Char, digits ≠ [] ∧ AllDigits digits ∧
    ((text.data = digits ∧ v = (decimalFrom 0 digits : Int)) ∨
     (text.data = '+' :: digits ∧ v = (decimalFrom 0 digits : Int)) ∨
     (text.data = '-' :: digits ∧ v = -(decimalFrom 0 digits : Int)))

/-! ## Sample data -/

/-- A session as `main` holds it once `Connect` has succeeded. -/
def connectedClient : PokerClient :=
  { NewPokerClient "alice" with conn := some { closed := false, fault := none },
                                isConnected := true }

/-- A `registered` message. -/
def registeredMsg (id chips : Int) : Option JSON :=
  some (.obj [("type", .str "registered"), ("player_id", .num (.int id)),
    ("chips", .num (.int chips))])

/-- A `welcome` message. -/
def welcomeMsg (id : Int) : Option JSON :=
  some (.obj [("type", .str "welcome"), ("player_id", .num (.int id))])

/-- A `game_state` message of stage 2 with a pot and one player. -/
def firstState : JSON :=
  .obj [("type", .str "game_state"), ("stage", .num (.int 2)), ("current_player", .num (.int 1)),
    ("pot", .num (.int 50)),
    ("players", .arr [.obj [("id", .num (.int 1)), ("name", .str "bob"),
      ("chips", .num (.int 950)), ("is_active", .bool true)]])]

/-- A `game_state` message of stage 3 that has neither pot nor players. -/
def secondState : JSON :=
  .obj [("type", .str "game_state"), ("stage", .num (.int 3)), ("dealer_position", .num (.int 1))]

/-- A `game_result` message. -/
def resultMsg : Option JSON :=
  some (.obj [("type", .str "game_result"), ("winners", .arr [.num (.int 1)])])

/-- An object without a type tag. -/
def untaggedMsg : Option JSON :=
  some (.obj [("player_id", .num (.int 3))])

/-- A `game_state` message with the given members after the type tag. -/
def gameStateMsg (members : List (String × JSON)) : Option JSON :=
  some (.obj (("type", .str "game_state") :: members))

/-! ## Checks on concrete inputs -/

example : mainInputStep connectedClient "raise 25" =
    some ([.write [("type", .str "action"), ("action", .str "raise"), ("amount", .int 25)]],
      true) := by decide
example : mainInputStep connectedClient "raise -5" =
    some ([.write [("type", .str "action"), ("action", .str "raise"), ("amount", .int (-5))]],
      true) := by decide
example : mainInputStep connectedClient "raise  5" =
    some ([.print "Usage: raise <amount>\n"], true) := by decide
example : mainInputStep connectedClient "raise 9223372036854775808" =
    some ([.print "Invalid amount: 9223372036854775808\n"], true) := by decide
example : mainInputStep connectedClient "raise 9223372036854775807" =
    some ([.write [("type", .str "action"), ("action", .str "raise"),
      ("amount", .int 9223372036854775807)]], true) := by decide
example : mainInputStep connectedClient "fold " =
    some ([.print "Unknown command. Type \x27quit\x27 to exit.\n"], true) := by decide

example : ((NewPokerClient "alice").handleMessage plainEnv (registeredMsg 7 1000)).playerID = 7 := by
  decide
example : ((NewPokerClient "alice").handleMessage plainEnv (registeredMsg 7 1000)).chips = 1000 := by
  decide
example : ((NewPokerClient "alice").handleMessage plainEnv
    (registeredMsg 9007199254740993 1000)).playerID = 9007199254740992 := by
  decide
example : (((NewPokerClient "alice").handleMessage plainEnv
    (gameStateMsg [("stage", .num (.int 2)), ("pot", .num (.int 50)),
      ("players", .arr [.obj [("id", .num (.int 1)), ("name", .str "bob")]])])).handleMessage plainEnv
    (gameStateMsg [("stage", .num (.int 3))])).gameState =
    { GameState.zero with MsgType := "game_state", Stage := 3 } := by
  decide

-- 0.1 is 0x1.999999999999ap-4; 2^53 + 1 is a tie and goes to the even mantissa; 2^53 + 3 goes up
example : json.roundFloat64 1 10 = some (7205759403792794, -56) := by decide
example : json.roundFloat64 9007199254740993 1 = some (4503599627370496, 1) := by decide
example : json.roundFloat64 9007199254740995 1 = some (4503599627370498, 1) := by decide
example : (json.Number.real 79 (-1)).toFloat64.map (Float64.toInt 0) = some 7 := by decide
example : (json.Number.real (-79) (-1)).toFloat64.map (Float64.toInt 0) = some (-7) := by decide

/-! ## Lemmas: `strconv.Atoi` and decimal text -/

theorem decimalFrom_cons (acc : Nat) (c : Char) (cs : List Char) :
    decimalFrom acc (c :: cs) = decimalFrom (acc * 10 + (c.toNat - 48)) cs := rfl

theorem decimalFrom_append (acc : Nat) (xs ys : List Char) :
    decimalFrom acc (xs ++ ys) = decimalFrom (decimalFrom acc xs) ys := by
  simp [decimalFrom, List.foldl_append]

theorem le_decimalFrom (digits : List Char) : ∀ acc, acc ≤ decimalFrom acc digits := by
  induction digits with
  | nil => intro acc; exact Nat.le_refl _
  | cons c cs ih =>
    intro acc
    rw [decimalFrom_cons]
    exact Nat.le_trans (by omega) (ih _)

theorem zero_toNat : '0'.toNat = 48 := by decide
theorem nine_toNat : '9'.toNat = 57 := by decide

theorem parseUintLoop_digits (digits : List Char) :
    ∀ acc, AllDigits digits → decimalFrom acc digits < 2 ^ 64 →
      strconv.parseUintLoop digits acc = .ok (decimalFrom acc digits) := by
  induction digits with
  | nil => intro acc _ _; rfl
  | cons c cs ih =>
    intro acc hd hlt
    have hc := hd c (List.mem_cons_self _ _)
    have hcs : AllDigits cs := fun x hx => hd x (List.mem_cons_of_mem _ hx)
    rw [decimalFrom_cons] at hlt ⊢
    have hle := le_decimalFrom cs (acc * 10 + (c.toNat - 48))
    have h64 : (2:Nat) ^ 64 = 18446744073709551616 := by norm_num
    rw [h64] at hlt
    have hmax : strconv.maxUint64 = 18446744073709551615 := by decide
    simp only [strconv.parseUintLoop, zero_toNat, nine_toNat, hmax]
    rw [if_pos hc, if_neg (by omega), if_neg (by omega)]
    exact ih _ hcs (by omega)

theorem parseUintLoop_ok (digits : List Char) :
    ∀ acc v, acc < 2 ^ 64 → strconv.parseUintLoop digits acc = .ok v →
      AllDigits digits ∧ v = decimalFrom acc digits ∧ v < 2 ^ 64 := by
  induction digits with
  | nil =>
    intro acc v hacc h
    simp only [strconv.parseUintLoop, Except.ok.injEq] at h
    subst h
    exact ⟨fun c hc => absurd hc (List.not_mem_nil c), rfl, hacc⟩
  | cons c cs ih =>
    intro acc v _ h
    have hmax : strconv.maxUint64 = 18446744073709551615 := by decide
    have h64 : (2:Nat) ^ 64 = 18446744073709551616 := by norm_num
    simp only [strconv.parseUintLoop, zero_toNat, nine_toNat, hmax] at h
    split at h
    · rename_i hc
      split at h
      · cases h
      · split at h
        · cases h
        · obtain ⟨h1, h2, h3⟩ := ih _ _ (by omega) h
          refine ⟨?_, ?_, h3⟩
          · intro x hx
            rcases List.mem_cons.1 hx with rfl | hx
            · exact hc
            · exact h1 x hx
          · rw [decimalFrom_cons]; exact h2
    · cases h

theorem digitChar_toNat (k : Nat) (hk : k < 10) :
    (Nat.digitChar k).toNat = k + 48 := by
  interval_cases k <;> decide

theorem toDigitsCore_spec (fuel : Nat) :
    ∀ n ds, n < fuel → ∃ pre, Nat.toDigitsCore 10 fuel n ds = pre ++ ds ∧ pre ≠ [] ∧
      AllDigits pre ∧ decimalFrom 0 pre = n := by
  induction fuel with
  | zero => intro n ds h; omega
  | succ fuel ih =>
    intro n ds hn
    have hd := digitChar_toNat (n % 10) (Nat.mod_lt _ (by decide))
    by_cases h0 : n / 10 = 0
    · refine ⟨[Nat.digitChar (n % 10)], ?_, by simp, ?_, ?_⟩
      · simp [Nat.toDigitsCore, h0]
      · intro c hc
        rw [List.mem_singleton] at hc
        subst hc
        omega
      · simp only [decimalFrom, List.foldl_cons, List.foldl_nil, hd]
        omega
    · obtain ⟨pre, h1, _, h3, h4⟩ := ih (n / 10) (Nat.digitChar (n % 10) :: ds) (by omega)
      refine ⟨pre ++ [Nat.digitChar (n % 10)], ?_, by simp, ?_, ?_⟩
      · simp [Nat.toDigitsCore, h0, h1]
      · intro c hc
        rcases List.mem_append.1 hc with hc | hc
        · exact h3 c hc
        · rw [List.mem_singleton] at hc
          subst hc
          omega
      · rw [decimalFrom_append, h4]
        simp only [decimalFrom, List.foldl_cons, List.foldl_nil, hd]
        omega

/-- The decimal text of a natural number is a non-empty run of digits with that value. -/
theorem toString_nat_spec (n : Nat) :
    (toString n).data ≠ [] ∧ AllDigits (toString n).data ∧ decimalFrom 0 (toString n).data = n := by
  obtain ⟨pre, h1, h2, h3, h4⟩ := toDigitsCore_spec (n + 1) n [] (Nat.lt_succ_self n)
  have h : (toString n).data = pre := by
    show (Nat.repr n).data = pre
    simp [Nat.repr, Nat.toDigits, h1, List.asString]
  rw [h]
  exact ⟨h2, h3, h4⟩

theorem ParseInt_digits (digits : List Char) (h0 : digits ≠ []) (hd : AllDigits digits)
    (hlt : decimalFrom 0 digits < 2 ^ 63) :
    strconv.ParseInt digits = .ok (decimalFrom 0 digits : Int) := by
  match digits, h0 with
  | c :: cs, _ =>
    have hc := hd c (List.mem_cons_self _ _)
    have hplus : c ≠ '+' := by
      intro h; subst h; revert hc; decide
    have hminus : c ≠ '-' := by
      intro h; subst h; revert hc; decide
    have h63 : (2:Nat) ^ 63 = 9223372036854775808 := by norm_num
    have h64 : (2:Nat) ^ 64 = 18446744073709551616 := by norm_num
    have hp := parseUintLoop_digits (c :: cs) 0 hd (by omega)
    simp only [strconv.ParseInt, strconv.ParseUint, hplus, hminus, or_self, if_false, hp,
      strconv.intSize]
    simp
    omega

theorem ParseUint_ok (digits : List Char) (v : Nat) (h : strconv.ParseUint digits = .ok v) :
    digits ≠ [] ∧ AllDigits digits ∧ v = decimalFrom 0 digits := by
  match digits with
  | [] => simp [strconv.ParseUint] at h
  | c :: cs =>
    obtain ⟨h1, h2, _⟩ := parseUintLoop_ok (c :: cs) 0 v (by norm_num) h
    exact ⟨by simp, h1, h2⟩

theorem Atoi_ok (text : String) (v : Int) (h : strconv.Atoi text = .ok v) :
    IsIntText text v ∧ -(2 ^ 63) ≤ v ∧ v < 2 ^ 63 := by
  unfold strconv.Atoi strconv.ParseInt at h
  match hdata : text.data with
  | [] => rw [hdata] at h; cases h
  | c :: cs =>
    rw [hdata] at h
    simp only [strconv.intSize] at h
    split at h
    · cases h
    · rename_i un hun
      obtain ⟨hne, hall, hval⟩ := ParseUint_ok _ _ hun
      split at h
      · cases h
      · split at h
        · cases h
        · rename_i hr1 hr2
          simp only [Except.ok.injEq] at h
          by_cases hm : c = '-'
          · subst hm
            simp at hr1 hr2 h hne hall hval
            subst h
            refine ⟨⟨cs, hne, hall, Or.inr (Or.inr ⟨hdata, by rw [hval]⟩)⟩, ?_, ?_⟩ <;> omega
          · by_cases hp : c = '+'
            · subst hp
              simp at hr1 hr2 h hne hall hval
              subst h
              refine ⟨⟨cs, hne, hall, Or.inr (Or.inl ⟨hdata, by rw [hval]⟩)⟩, ?_, ?_⟩ <;> omega
            · simp [hm, hp] at hr1 hr2 h hne hall hval
              subst h
              refine ⟨⟨c :: cs, by simp, hall, Or.inl ⟨hdata, by rw [hval]⟩⟩, ?_, ?_⟩ <;> omega

/-! ## Lemmas: the command dispatcher -/

theorem splitChars_ne_nil (sep : Char) (l : List Char) : strings.splitChars sep l ≠ [] := by
  cases l with
  | nil => simp [strings.splitChars]
  | cons c cs =>
    simp only [strings.splitChars]
    split
    · simp
    · split <;> simp

theorem splitChars_length_one (sep : Char) (l : List Char) :
    (strings.splitChars sep l).length = 1 → strings.splitChars sep l = [l] ∧ sep ∉ l := by
  induction l with
  | nil => intro _; simp [strings.splitChars]
  | cons c cs ih =>
    intro h
    simp only [strings.splitChars] at h ⊢
    split at h
    · have := splitChars_ne_nil sep cs
      simp only [List.length_cons, Nat.add_left_eq_self, List.length_eq_zero] at h
      exact absurd h this
    · rename_i hc
      rw [if_neg hc]
      split at h
      · rename_i hs
        exact absurd hs (splitChars_ne_nil sep cs)
      · rename_i piece pieces hs
        rw [hs] at ih
        simp only [List.length_cons] at h ih
        obtain ⟨h1, h2⟩ := ih h
        simp only [List.cons.injEq] at h1
        obtain ⟨h1, h3⟩ := h1
        subst h1 h3
        refine ⟨rfl, ?_⟩
        simp only [List.mem_cons, not_or]
        exact ⟨fun e => hc e.symm, h2⟩

theorem splitChars_no_sep (sep : Char) (l : List Char) (h : sep ∉ l) :
    strings.splitChars sep l = [l] := by
  induction l with
  | nil => rfl
  | cons c cs ih =>
    simp only [List.mem_cons, not_or] at h
    simp only [strings.splitChars]
    rw [if_neg (fun e => h.1 e.symm), ih h.2]

/-- Shape of a `raise ` line: the keyword and the pieces of the amount. -/
theorem split_raise (a : String) :
    strings.Split ("raise " ++ a) ' ' = "raise" :: (strings.splitChars ' ' a.data).map String.mk := by
  simp only [strings.Split, String.data_append]
  show List.map String.mk (strings.splitChars ' ' ('r' :: 'a' :: 'i' :: 's' :: 'e' :: ' ' :: a.data)) = _
  have h : strings.splitChars ' ' a.data ≠ [] := splitChars_ne_nil _ _
  simp only [strings.splitChars]
  match hs : strings.splitChars ' ' a.data with
  | [] => exact absurd hs h
  | piece :: pieces => simp

theorem raise_ne (a : String) :
    "raise " ++ a ≠ "quit" ∧ "raise " ++ a ≠ "ready" ∧ "raise " ++ a ≠ "notready" ∧
    "raise " ++ a ≠ "fold" ∧ "raise " ++ a ≠ "check" ∧ "raise " ++ a ≠ "call" ∧
    strings.HasPrefix ("raise " ++ a) "raise " = true := by
  refine ⟨?_, ?_, ?_, ?_, ?_, ?_, ?_⟩
  all_goals first
    | (intro h
       have h1 := congrArg String.data h
       rw [String.data_append] at h1
       revert h1
       show ('r' :: 'a' :: 'i' :: 's' :: 'e' :: ' ' :: a.data) = _ → False
       intro h1
       simp at h1)
    | (simp only [strings.HasPrefix, String.data_append]
       show List.isPrefixOf ['r', 'a', 'i', 's', 'e', ' '] ('r' :: 'a' :: 'i' :: 's' :: 'e' :: ' ' :: a.data) = true
       simp [List.isPrefixOf])

/-- The `raise` branch of the dispatcher, for a line that begins with `raise `. -/
theorem mainInputStep_raise (client : PokerClient) (a : String) :
    mainInputStep client ("raise " ++ a) =
      if (strings.splitChars ' ' a.data).length ≠ 1 then
        some ([Event.print "Usage: raise <amount>\n"], true)
      else
        match strconv.Atoi a with
        | .error _ => some ([Event.print ("Invalid amount: " ++ a ++ "\n")], true)
        | .ok amount => reportSend (client.PerformAction "raise" amount) := by
  obtain ⟨h1, h2, h3, h4, h5, h6, h7⟩ := raise_ne a
  simp only [mainInputStep, if_neg h1, if_neg h2, if_neg h3, if_neg h4, if_neg h5, if_neg h6, h7,
    if_true, split_raise, List.length_cons, List.length_map]
  by_cases hl : (strings.splitChars ' ' a.data).length = 1
  · have hs := (splitChars_length_one _ _ hl).1
    simp [hl, hs]
  · simp [hl]

/-- A send on a session that has a connection: one `Write` of the message, then possibly the
report of its error. -/
theorem reportSend_sendJSON (client : PokerClient) (c : Conn) (hc : client.conn = some c)
    (msg : Message) :
    ∃ es, reportSend (client.sendJSON msg) = some (es, true) ∧ sent es = [msg] ∧
      (c.Write = none → es = [Event.write msg]) := by
  cases hw : c.Write with
  | none =>
    exact ⟨[Event.write msg], by simp only [PokerClient.sendJSON, hc, hw, reportSend], rfl,
      fun _ => rfl⟩
  | some e =>
    exact ⟨[Event.write msg] ++ [Event.print ("Error: " ++ ("failed to send message: " ++ e) ++ "\n")],
      by simp only [PokerClient.sendJSON, hc, hw, reportSend], rfl, fun h => by cases h⟩

/-- C1 (amended): on a session with a connection, a line `raise <amount>` whose amount is the
decimal text of a natural number `n < 2^63` makes the dispatcher write exactly one message, and
that message has type `action`, action `raise` and amount `n`. -/
theorem raise_sends_amount (client : PokerClient) (c : Conn) (hc : client.conn = some c)
    (n : Nat) (hn : n < 2 ^ 63) :
    ∃ es, mainInputStep client ("raise " ++ toString n) = some (es, true) ∧
      sent es = [[("type", .str "action"), ("action", .str "raise"), ("amount", .int n)]] := by
  obtain ⟨h0, hd, hv⟩ := toString_nat_spec n
  have hsp : ' ' ∉ (toString n).data := by
    intro h
    have := hd _ h
    revert this
    decide
  have hs := splitChars_no_sep ' ' _ hsp
  have ha : strconv.Atoi (toString n) = .ok (n : Int) := by
    have := ParseInt_digits _ h0 hd (by rw [hv]; exact hn)
    rw [hv] at this
    exact this
  rw [mainInputStep_raise, hs, ha]
  obtain ⟨es, h1, h2, _⟩ := reportSend_sendJSON client c hc
    [("type", .str "action"), ("action", .str "raise"), ("amount", .int n)]
  exact ⟨es, by simpa [PokerClient.PerformAction] using h1, h2⟩

/-- C2 (amended): a line `raise <amount>` whose amount is not the text of an integer within the
64-bit range (an optional sign and decimal digits) makes the dispatcher write no message: the
whole trace is one printed notice, the usage line or the invalid-amount line. -/
theorem raise_rejected_sends_nothing (client : PokerClient) (a : String)
    (h : ∀ v : Int, IsIntText a v → v < -(2 ^ 63) ∨ 2 ^ 63 ≤ v) :
    mainInputStep client ("raise " ++ a) = some ([Event.print "Usage: raise <amount>\n"], true) ∨
    mainInputStep client ("raise " ++ a) =
      some ([Event.print ("Invalid amount: " ++ a ++ "\n")], true) := by
  rw [mainInputStep_raise]
  by_cases hl : (strings.splitChars ' ' a.data).length = 1
  · right
    rw [if_neg (by simpa using hl)]
    cases ha : strconv.Atoi a with
    | error e => rfl
    | ok v =>
      obtain ⟨h1, h2, h3⟩ := Atoi_ok a v ha
      rcases h v h1 with h4 | h4 <;> omega
  · left
    rw [if_pos hl]

theorem data_quit : "quit".data = ['q', 'u', 'i', 't'] := rfl
theorem data_ready : "ready".data = ['r', 'e', 'a', 'd', 'y'] := rfl
theorem data_notready : "notready".data = ['n', 'o', 't', 'r', 'e', 'a', 'd', 'y'] := rfl
theorem data_fold : "fold".data = ['f', 'o', 'l', 'd'] := rfl
theorem data_check : "check".data = ['c', 'h', 'e', 'c', 'k'] := rfl
theorem data_call : "call".data = ['c', 'a', 'l', 'l'] := rfl
theorem data_raise : "raise ".data = ['r', 'a', 'i', 's', 'e', ' '] := rfl

/-- A command word followed by anything at all is not a command. -/
theorem mainInputStep_word_suffix (client : PokerClient) (w suffix : String)
    (hw : w = "fold" ∨ w = "check" ∨ w = "call") (hs : suffix ≠ "") :
    mainInputStep client (w ++ suffix) =
      some ([Event.print "Unknown command. Type \x27quit\x27 to exit.\n"], true) := by
  have hd : suffix.data ≠ [] := fun h => hs (String.ext h)
  match hdata : suffix.data, hd with
  | c :: cs, _ =>
    rcases hw with rfl | rfl | rfl <;>
      simp [mainInputStep, String.ext_iff, String.data_append, data_quit, data_ready,
        data_notready, data_fold, data_check, data_call, data_raise, strings.HasPrefix,
        List.isPrefixOf, hdata]

theorem mainInputStep_word (client : PokerClient) (w : String)
    (hw : w = "fold" ∨ w = "check" ∨ w = "call") :
    mainInputStep client w = reportSend (client.sendJSON [("type", .str "action"), ("action", .str w)]) := by
  rcases hw with rfl | rfl | rfl <;>
    simp [mainInputStep, PokerClient.PerformAction, String.ext_iff, data_quit, data_ready,
        data_notready, data_fold, data_check, data_call, data_raise]

/-- C3: on a session with a connection, each of the lines `fold`, `check` and `call` makes the
dispatcher write exactly one message, of type `action` with that word as action and without
an amount; the same word followed by any non-empty text, trailing whitespace included, is an
unknown command and the trace is the one printed notice, with no message. -/
theorem plain_action_exact_word (client : PokerClient) (c : Conn) (hc : client.conn = some c) (w : String)
    (hw : w = "fold" ∨ w = "check" ∨ w = "call") :
    (∃ es, mainInputStep client w = some (es, true) ∧
      sent es = [[("type", .str "action"), ("action", .str w)]] ∧
      ∀ msg ∈ sent es, msg.get "amount" = none) ∧
    (∀ suffix : String, suffix ≠ "" →
      mainInputStep client (w ++ suffix) =
        some ([Event.print "Unknown command. Type \x27quit\x27 to exit.\n"], true)) := by
  refine ⟨?_, fun suffix hs => mainInputStep_word_suffix client w suffix hw hs⟩
  obtain ⟨es, h1, h2, _⟩ := reportSend_sendJSON client c hc
    [("type", .str "action"), ("action", .str w)]
  refine ⟨es, by rw [mainInputStep_word client w hw]; exact h1, h2, ?_⟩
  intro msg hmsg
  rw [h2, List.mem_singleton] at hmsg
  subst hmsg
  simp [Message.get, List.find?]

/-- A send that returns has written exactly its message, and the loop goes on. -/
theorem reportSend_some (client : PokerClient) (msg : Message) (es : List Event) (b : Bool)
    (h : reportSend (client.sendJSON msg) = some (es, b)) : sent es = [msg] ∧ b = true := by
  unfold PokerClient.sendJSON at h
  cases hc : client.conn with
  | none => simp [hc, reportSend] at h
  | some c =>
    cases hw : c.Write with
    | none =>
      simp only [hc, hw, reportSend, Option.some.injEq, Prod.mk.injEq] at h
      obtain ⟨rfl, rfl⟩ := h
      exact ⟨rfl, rfl⟩
    | some e =>
      simp only [hc, hw, reportSend, Option.some.injEq, Prod.mk.injEq] at h
      obtain ⟨rfl, rfl⟩ := h
      exact ⟨rfl, rfl⟩

/-- Every message `PerformAction` writes has type `action`. -/
theorem PerformAction_type (client : PokerClient) (action : String) (amount : Int)
    (es : List Event) (b : Bool)
    (h : reportSend (client.PerformAction action amount) = some (es, b)) :
    ∀ msg ∈ sent es, msg.get "type" = some (.str "action") := by
  unfold PokerClient.PerformAction at h
  obtain ⟨h1, _⟩ := reportSend_some _ _ _ _ h
  intro msg hmsg
  rw [h1, List.mem_singleton] at hmsg
  subst hmsg
  split <;> simp [Message.get, List.find?]

/-- Only the lines `ready` and `notready` make the dispatcher write a message of type `ready`. -/
theorem ready_only (client : PokerClient) (input : String) (es : List Event) (b : Bool)
    (msg : Message) (h : mainInputStep client input = some (es, b)) (hm : msg ∈ sent es)
    (ht : msg.get "type" = some (.str "ready")) : input = "ready" ∨ input = "notready" := by
  by_cases h2 : input = "ready"
  · exact Or.inl h2
  by_cases h3 : input = "notready"
  · exact Or.inr h3
  exfalso
  have hact : ∀ action amount,
      reportSend (client.PerformAction action amount) = some (es, b) → False := by
    intro action amount h'
    have := PerformAction_type client action amount es b h' msg hm
    rw [this] at ht
    simp at ht
  have hnone : ∀ e : Event, (∀ m, e ≠ Event.write m) → some ([e], true) = some (es, b) → False := by
    intro e he h'
    simp only [Option.some.injEq, Prod.mk.injEq] at h'
    obtain ⟨rfl, _⟩ := h'
    cases e with
    | write m => exact he m rfl
    | close => simp [sent] at hm
    | print t => simp [sent] at hm
    | signal => simp [sent] at hm
  unfold mainInputStep at h
  simp only [if_neg h2, if_neg h3] at h
  split at h
  · simp only [Option.some.injEq, Prod.mk.injEq] at h
    obtain ⟨rfl, _⟩ := h
    simp [sent] at hm
  split at h
  · exact hact _ _ h
  split at h
  · exact hact _ _ h
  split at h
  · exact hact _ _ h
  split at h
  · split at h
    · exact hnone _ (fun m => by simp) h
    · split at h
      · exact hnone _ (fun m => by simp) h
      · exact hact _ _ h
  · exact hnone _ (fun m => by simp) h

theorem sent_append (xs ys : List Event) : sent (xs ++ ys) = sent xs ++ sent ys := by
  induction xs with
  | nil => rfl
  | cons e es ih => cases e <;> simp [sent, ih]

/-- With a connection in place, an iteration of the input loop does not panic, and it goes on
with the next line unless the line is `quit`. -/
theorem mainInputStep_some (client : PokerClient) (c : Conn) (hc : client.conn = some c)
    (input : String) (hq : input ≠ "quit") :
    ∃ es, mainInputStep client input = some (es, true) := by
  have hsend : ∀ msg, ∃ es, reportSend (client.sendJSON msg) = some (es, true) := by
    intro msg
    obtain ⟨es, h, _⟩ := reportSend_sendJSON client c hc msg
    exact ⟨es, h⟩
  unfold mainInputStep
  rw [if_neg hq]
  split
  · exact hsend _
  split
  · exact hsend _
  split
  · exact hsend _
  split
  · exact hsend _
  split
  · exact hsend _
  split
  · dsimp only
    split
    · exact ⟨_, rfl⟩
    · split
      · exact ⟨_, rfl⟩
      · exact hsend _
  · exact ⟨_, rfl⟩

/-- The trace of the input loop over lines without `quit`, followed by more lines, is the
trace over the first lines followed by the trace over the others: an iteration does not
depend on the iterations before it. -/
theorem mainInputLoop_append (client : PokerClient) (c : Conn) (hc : client.conn = some c)
    (pre rest : List String) (hq : "quit" ∉ pre) :
    ∃ es0, mainInputLoop client pre = some es0 ∧
      mainInputLoop client (pre ++ rest) = (mainInputLoop client rest).map (fun es => es0 ++ es) := by
  induction pre with
  | nil =>
    refine ⟨[], rfl, ?_⟩
    rw [List.nil_append]
    cases mainInputLoop client rest <;> rfl
  | cons input pre ih =>
    simp only [List.mem_cons, not_or] at hq
    obtain ⟨es0, h1, h2⟩ := ih hq.2
    obtain ⟨es, hes⟩ := mainInputStep_some client c hc input (fun h => hq.1 h.symm)
    refine ⟨es ++ es0, ?_, ?_⟩
    · simp only [mainInputLoop, hes, h1]
    · show mainInputLoop client (input :: (pre ++ rest)) = _
      simp only [mainInputLoop, hes]
      rw [h2]
      cases mainInputLoop client rest <;> simp

theorem mainInputStep_ready (client : PokerClient) (c : Conn) (hc : client.conn = some c)
    (r : Bool) :
    ∃ es, mainInputStep client (if r then "ready" else "notready") = some (es, true) ∧
      sent es = [[("type", .str "ready"), ("ready", .bool r)]] := by
  obtain ⟨es, h1, h2, _⟩ := reportSend_sendJSON client c hc
    [("type", .str "ready"), ("ready", .bool r)]
  refine ⟨es, ?_, h2⟩
  cases r <;>
    simpa [mainInputStep, PokerClient.SetReady, String.ext_iff, data_quit, data_ready,
      data_notready] using h1

/-- C4: on a session with a connection, a line makes the dispatcher write a message of type
`ready` exactly when it is `ready` or `notready`; the flag of the message is `true` for
`ready` and `false` for `notready`; and after any lines without `quit`, two lines `ready`
add two identical messages with flag `true`. -/
theorem ready_message_iff (client : PokerClient) (c : Conn) (hc : client.conn = some c) :
    (∀ input : String,
      (∃ es b msg, mainInputStep client input = some (es, b) ∧ msg ∈ sent es ∧
        msg.get "type" = some (.str "ready")) ↔ (input = "ready" ∨ input = "notready")) ∧
    (∃ es, mainInputStep client "ready" = some (es, true) ∧
      sent es = [[("type", .str "ready"), ("ready", .bool true)]]) ∧
    (∃ es, mainInputStep client "notready" = some (es, true) ∧
      sent es = [[("type", .str "ready"), ("ready", .bool false)]]) ∧
    (∀ pre : List String, "quit" ∉ pre →
      ∃ es0 es, mainInputLoop client pre = some es0 ∧
        mainInputLoop client (pre ++ ["ready", "ready"]) = some es ∧
        sent es = sent es0 ++ [[("type", .str "ready"), ("ready", .bool true)],
          [("type", .str "ready"), ("ready", .bool true)]]) := by
  have hT := mainInputStep_ready client c hc true
  have hF := mainInputStep_ready client c hc false
  simp only [if_true] at hT
  simp only [Bool.false_eq_true, if_false] at hF
  refine ⟨?_, hT, hF, ?_⟩
  · intro input
    constructor
    · rintro ⟨es, b, msg, h, hm, ht⟩
      exact ready_only client input es b msg h hm ht
    · rintro (rfl | rfl)
      · obtain ⟨es, h1, h2⟩ := hT
        exact ⟨es, true, _, h1, by rw [h2]; exact List.mem_singleton_self _, by
          simp [Message.get, List.find?]⟩
      · obtain ⟨es, h1, h2⟩ := hF
        exact ⟨es, true, _, h1, by rw [h2]; exact List.mem_singleton_self _, by
          simp [Message.get, List.find?]⟩
  · intro pre hq
    obtain ⟨es0, h1, h2⟩ := mainInputLoop_append client c hc pre ["ready", "ready"] hq
    obtain ⟨es, h3, h4⟩ := hT
    refine ⟨es0, es0 ++ (es ++ (es ++ [])), h1, ?_, ?_⟩
    · rw [h2]
      simp only [mainInputLoop, h3, Option.map_some']
    · simp only [sent_append, h4]
      simp [sent]

/-! ## Lemmas: the receive side -/

/-- A decoded map holds, under each key, the decoding of the last member with that key. -/
theorem lookup_decodeMembers (key : String) (ms : List (String × JSON)) :
    ∀ es, json.decodeMembers ms = some es →
      match JSON.member ms key with
      | none => Iface.lookup es key = none
      | some x => ∃ v, json.decodeValue x = some v ∧ Iface.lookup es key = some v := by
  induction ms with
  | nil =>
    intro es h
    simp only [json.decodeMembers, Option.some.injEq] at h
    subst h
    simp [JSON.member, Iface.lookup]
  | cons kx xs ih =>
    intro es h
    obtain ⟨k, x⟩ := kx
    simp only [json.decodeMembers] at h
    cases hv : json.decodeValue x with
    | none => simp [hv] at h
    | some v =>
      cases hes : json.decodeMembers xs with
      | none => simp [hv, hes] at h
      | some es1 =>
        simp only [hv, hes, Option.some.injEq] at h
        subst h
        have ih1 := ih es1 hes
        simp only [JSON.member, Iface.lookup]
        cases hm : JSON.member xs key with
        | some y =>
          simp only [hm] at ih1
          obtain ⟨w, hw1, hw2⟩ := ih1
          simp only [hw2]
          exact ⟨w, hw1, rfl⟩
        | none =>
          simp only [hm] at ih1
          simp only [ih1]
          by_cases hk : k = key
          · simp only [if_pos hk]
            exact ⟨v, hv, rfl⟩
          · simp only [if_neg hk]

/-- Only a JSON string decodes to a Go string. -/
theorem decodeValue_string (x : JSON) (s : String) (h : json.decodeValue x = some (.string s)) :
    x = .str s := by
  cases x with
  | null => simp [json.decodeValue] at h
  | bool b => simp [json.decodeValue] at h
  | num n =>
    simp only [json.decodeValue] at h
    split at h <;> simp at h
  | str t => simp only [json.decodeValue, Option.some.injEq, Iface.string.injEq] at h; rw [h]
  | arr items =>
    simp only [json.decodeValue] at h
    split at h <;> simp at h
  | obj members =>
    simp only [json.decodeValue] at h
    split at h <;> simp at h

/-- The type assertion on `msgMap["type"]` succeeds exactly when the message carries a tag, and
then it gives that tag. -/
theorem assertString_type (text : JSON) (msgMap : List (String × Iface))
    (h : json.UnmarshalMap text = some msgMap) :
    (Iface.index msgMap "type").assertString =
      match msgTag (some text) with
      | some t => (t, true)
      | none => ("", false) := by
  cases text with
  | obj ms =>
    simp only [json.UnmarshalMap] at h
    have hl := lookup_decodeMembers "type" ms msgMap h
    simp only [msgTag, Iface.index]
    cases hm : JSON.member ms "type" with
    | none =>
      simp only [hm] at hl
      simp [hl, Iface.assertString]
    | some x =>
      simp only [hm] at hl
      obtain ⟨v, hv1, hv2⟩ := hl
      simp only [hv2, Option.getD_some]
      cases v with
      | string s =>
        have := decodeValue_string x s hv1
        subst this
        rfl
      | nil => cases x <;> first | rfl | (simp [json.decodeValue] at hv1)
      | bool b => cases x <;> first | rfl | (simp [json.decodeValue] at hv1)
      | float64 f => cases x <;> first | rfl | (simp [json.decodeValue] at hv1)
      | slice l => cases x <;> first | rfl | (simp [json.decodeValue] at hv1)
      | map l => cases x <;> first | rfl | (simp [json.decodeValue] at hv1)
  | null =>
    simp only [json.UnmarshalMap, Option.some.injEq] at h
    subst h
    rfl
  | bool b => simp [json.UnmarshalMap] at h
  | num n => simp [json.UnmarshalMap] at h
  | str s => simp [json.UnmarshalMap] at h
  | arr l => simp [json.UnmarshalMap] at h

/-- A message without a tag is dropped. -/
theorem handleMessage_untagged (env : Env) (p : PokerClient) (msg : Option JSON)
    (h : msgTag msg = none) : p.handleMessage env msg = p := by
  cases msg with
  | none => rfl
  | some text =>
    simp only [PokerClient.handleMessage]
    cases hu : json.UnmarshalMap text with
    | none => rfl
    | some msgMap =>
      simp only [assertString_type text msgMap hu, h]
      rfl

/-- A message on which `json.Unmarshal` reports an error is dropped. -/
theorem handleMessage_undecodable (env : Env) (p : PokerClient) (text : JSON)
    (h : json.UnmarshalMap text = none) : p.handleMessage env (some text) = p := by
  simp only [PokerClient.handleMessage, h]

/-- The dispatch of `handleMessage` on a decoded message with tag `t`. -/
theorem handleMessage_tagged (env : Env) (p : PokerClient) (text : JSON) (t : String)
    (msgMap : List (String × Iface)) (hu : json.UnmarshalMap text = some msgMap)
    (ht : msgTag (some text) = some t) :
    p.handleMessage env (some text) =
      if t = "welcome" then
        { p with playerID := (Iface.index msgMap "player_id").assertFloat64.1.toInt env.intOverflow }
      else if t = "registered" then
        { p with playerID := (Iface.index msgMap "player_id").assertFloat64.1.toInt env.intOverflow,
                 chips := (Iface.index msgMap "chips").assertFloat64.1.toInt env.intOverflow }
      else if t = "game_state" then
        match env.unmarshalGameState text GameState.zero with
        | none => p
        | some gameState => { p with gameState := gameState }
      else if t = "private_cards" then
        match env.unmarshalCards text CardsMsg.zero with
        | none => p
        | some cardsMsg => { p with privateCards := cardsMsg.Cards }
      else if t = "public_cards" then
        match env.unmarshalCards text CardsMsg.zero with
        | none => p
        | some cardsMsg => { p with publicCards := cardsMsg.Cards }
      else p := by
  simp only [PokerClient.handleMessage, hu, assertString_type text msgMap hu, ht]
  simp only [Bool.not_true, Bool.false_eq_true, if_false]
  repeat' split
  all_goals rfl

/-- C9: a message whose tag is `game_result`, `error` or outside the dispatch table leaves the
whole session as it is. -/
theorem presentation_message_frame (env : Env) (p : PokerClient) (msg : Option JSON) (t : String)
    (ht : msgTag msg = some t)
    (h : t = "game_result" ∨ t = "error" ∨ t ∉ dispatchTable) :
    p.handleMessage env msg = p := by
  have h5 : t ≠ "welcome" ∧ t ≠ "registered" ∧ t ≠ "game_state" ∧ t ≠ "private_cards" ∧
      t ≠ "public_cards" := by
    rcases h with rfl | rfl | h
    · decide
    · decide
    · simp only [dispatchTable, List.mem_cons, List.mem_singleton, not_or] at h
      exact ⟨h.1, h.2.1, h.2.2.1, h.2.2.2.1, h.2.2.2.2.1⟩
  cases msg with
  | none => rfl
  | some text =>
    cases hu : json.UnmarshalMap text with
    | none => exact handleMessage_undecodable env p text hu
    | some msgMap =>
      rw [handleMessage_tagged env p text t msgMap hu ht]
      simp only [if_neg h5.1, if_neg h5.2.1, if_neg h5.2.2.1, if_neg h5.2.2.2.1,
        if_neg h5.2.2.2.2]

/-- The receive loop does nothing on a session that is not connected. -/
theorem readMessages_stopped (env : Env) (p : PokerClient) (reads : List PokerClient.ReadResult)
    (h : p.isConnected = false) : p.readMessages env reads = p := by
  cases reads with
  | nil => rfl
  | cons r rest => simp only [PokerClient.readMessages, h, Bool.not_false, if_true]

/-- C10: a message that is not a JSON text, on which `json.Unmarshal` reports an error, or that
has no string under `type`, leaves the session as it is; processing it and then a message
`m` gives the session that processing `m` alone gives, and the receive loop goes on with the
reads that follow. -/
theorem undecodable_message_dropped (env : Env) (p : PokerClient) (msg : Option JSON)
    (h : msg = none ∨ (∃ text, msg = some text ∧ json.UnmarshalMap text = none) ∨
      msgTag msg = none) :
    p.handleMessage env msg = p ∧
    (∀ m, p.handleAll env [msg, m] = p.handleMessage env m) ∧
    (∀ rest, p.readMessages env (.bytes msg :: rest) = p.readMessages env rest) := by
  have h1 : p.handleMessage env msg = p := by
    rcases h with rfl | ⟨text, rfl, hu⟩ | h
    · rfl
    · exact handleMessage_undecodable env p text hu
    · exact handleMessage_untagged env p msg h
  refine ⟨h1, ?_, ?_⟩
  · intro m
    simp only [PokerClient.handleAll, List.foldl_cons, List.foldl_nil, h1]
  · intro rest
    cases hc : p.isConnected with
    | false => rw [readMessages_stopped env p _ hc, readMessages_stopped env p _ hc]
    | true => simp only [PokerClient.readMessages, hc, h1, Bool.not_true, Bool.false_eq_true,
        if_false]

/-- C5: after `handleMessage` on any message `m1` and then on a well-formed `game_state`
message `m2`, the cached `gameState` is the decoding of `m2` into the zero value of
`GameState`, whatever `m1` and the session were. -/
theorem game_state_replaced_wholesale (env : Env) (p : PokerClient) (m1 : Option JSON) (m2 : JSON) (g2 : GameState)
    (ht : msgTag (some m2) = some "game_state") (hu : (json.UnmarshalMap m2).isSome = true)
    (hg : env.unmarshalGameState m2 GameState.zero = some g2) :
    ((p.handleMessage env m1).handleMessage env (some m2)).gameState = g2 := by
  cases hm : json.UnmarshalMap m2 with
  | none => rw [hm] at hu; cases hu
  | some msgMap =>
    rw [handleMessage_tagged env _ m2 "game_state" msgMap hm ht]
    simp [hg]

theorem playerID_frame (env : Env) (p : PokerClient) (msg : Option JSON)
    (h : msgTag msg ≠ some "welcome" ∧ msgTag msg ≠ some "registered") :
    (p.handleMessage env msg).playerID = p.playerID := by
  cases ht : msgTag msg with
  | none => rw [handleMessage_untagged env p msg ht]
  | some t =>
    rw [ht] at h
    have h1 : t ≠ "welcome" := fun e => h.1 (by rw [e])
    have h2 : t ≠ "registered" := fun e => h.2 (by rw [e])
    cases msg with
    | none => rfl
    | some text =>
      cases hu : json.UnmarshalMap text with
      | none => rw [handleMessage_undecodable env p text hu]
      | some msgMap =>
        rw [handleMessage_tagged env p text t msgMap hu ht]
        simp only [if_neg h1, if_neg h2]
        repeat' split
        all_goals rfl

/-- C7 (amended): `playerID` keeps its value over every sequence of messages none of which
carries the tag `welcome` or `registered`. -/
theorem playerID_kept_without_assignment (env : Env) (p : PokerClient) (msgs : List (Option JSON))
    (h : ∀ m ∈ msgs, msgTag m ≠ some "welcome" ∧ msgTag m ≠ some "registered") :
    (p.handleAll env msgs).playerID = p.playerID := by
  induction msgs generalizing p with
  | nil => rfl
  | cons m ms ih =>
    simp only [PokerClient.handleAll, List.foldl_cons]
    have := ih (p.handleMessage env m) (fun x hx => h x (List.mem_cons_of_mem _ hx))
    simp only [PokerClient.handleAll] at this
    rw [this, playerID_frame env p m (h m (List.mem_cons_self _ _))]

/-! ## Lemmas: integers through `float64` -/

theorem log2Fuel_spec (fuel : Nat) :
    ∀ n, n ≤ fuel → n ≠ 0 →
      2 ^ json.log2Fuel fuel n ≤ n ∧ n < 2 ^ (json.log2Fuel fuel n + 1) := by
  induction fuel with
  | zero => intro n h h0; omega
  | succ fuel ih =>
    intro n h h0
    simp only [json.log2Fuel]
    split
    · simp only [pow_zero, zero_add, pow_one]; omega
    · obtain ⟨h1, h2⟩ := ih (n / 2) (by omega) (by omega)
      rw [pow_succ] at h2 ⊢
      rw [pow_succ]
      constructor <;> omega

theorem floorLog2_spec (n : Nat) (h0 : n ≠ 0) :
    2 ^ json.floorLog2 n ≤ n ∧ n < 2 ^ (json.floorLog2 n + 1) :=
  log2Fuel_spec n n (Nat.le_refl n) h0

/-- An integer below `2^53` is a `float64`: rounding leaves it as it is. -/
theorem roundFloat64_exact (n : Nat) (h0 : n ≠ 0) (h : n < 2 ^ 53) :
    ∃ k : Nat, json.roundFloat64 n 1 = some (n * 2 ^ k, -(k : Int)) := by
  obtain ⟨ha, _⟩ := floorLog2_spec n h0
  have ha52 : json.floorLog2 n ≤ 52 := by
    by_contra hc
    have : 2 ^ 53 ≤ 2 ^ json.floorLog2 n := Nat.pow_le_pow_right (by decide) (by omega)
    omega
  have hb : json.floorLog2 1 = 0 := rfl
  refine ⟨52 - json.floorLog2 n, ?_⟩
  unfold json.roundFloat64
  rw [if_neg h0]
  simp only [hb, pow_zero, mul_one, one_mul, Nat.cast_zero, sub_zero]
  rw [if_pos ha]
  have he : max ((json.floorLog2 n : Int) - 52) (-1074) = -((52 - json.floorLog2 n : Nat) : Int) := by
    omega
  rw [he]
  generalize 52 - json.floorLog2 n = k
  cases k with
  | zero => simp [Nat.mod_one]
  | succ k =>
    have hneg : ¬ (-((k + 1 : Nat) : Int) ≥ 0) := by omega
    simp only [if_neg hneg, neg_neg, Int.toNat_ofNat, Nat.div_one, Nat.mod_one]
    simp
    omega

theorem roundFloat64_zero : json.roundFloat64 0 1 = some (0, 0) := by decide

theorem roundFloat64_pow53 :
    json.roundFloat64 9007199254740992 1 = some (4503599627370496, 1) := by decide

/-- An integer literal of absolute value at most `2^53` survives the passage through `float64`
that `handleMessage` puts it through. -/
theorem int_float64_int (overflow : Int) (i : Int) (h : i.natAbs ≤ 2 ^ 53) :
    ((json.Number.int i).toFloat64).map (Float64.toInt overflow) = some i := by
  have h53 : (2:Nat) ^ 53 = 9007199254740992 := by norm_num
  have h63 : (2:Int) ^ 63 = 9223372036854775808 := by norm_num
  rw [h53] at h
  simp only [json.Number.toFloat64, Option.map_map]
  by_cases h0 : i.natAbs = 0
  · rw [h0, roundFloat64_zero]
    simp [Float64.toInt]
    omega
  by_cases hlt : i.natAbs < 2 ^ 53
  · obtain ⟨k, hk⟩ := roundFloat64_exact i.natAbs h0 hlt
    rw [hk]
    have hdiv : i.natAbs * 2 ^ k / 2 ^ k = i.natAbs :=
      Nat.mul_div_cancel _ (Nat.pos_pow_of_pos k (by decide))
    simp only [Option.map_some', Function.comp_apply, Float64.toInt, Option.some.injEq, h63]
    cases k with
    | zero =>
      simp only [Nat.cast_zero, neg_zero, ge_iff_le, le_refl, if_true, Int.toNat_zero, pow_zero,
        mul_one]
      by_cases hneg : i < 0
      · simp only [hneg, decide_True, if_true]
        rw [if_pos (by omega)]
        omega
      · simp only [hneg, decide_False, Bool.false_eq_true, if_false]
        rw [if_pos (by omega)]
        omega
    | succ k =>
      have hneg' : ¬ (-((k + 1 : Nat) : Int) ≥ 0) := by omega
      simp only [if_neg hneg', neg_neg, Int.toNat_ofNat, hdiv]
      by_cases hneg : i < 0
      · simp only [hneg, decide_True, if_true]
        rw [if_pos (by omega)]
        omega
      · simp only [hneg, decide_False, Bool.false_eq_true, if_false]
        rw [if_pos (by omega)]
        omega
  · have he : i.natAbs = 9007199254740992 := by omega
    rw [he, roundFloat64_pow53]
    simp only [Option.map_some', Function.comp_apply, Float64.toInt, Option.some.injEq, h63]
    by_cases hneg : i < 0
    · simp only [hneg, decide_True, if_true]
      norm_num
      omega
    · simp only [hneg, decide_False, Bool.false_eq_true, if_false]
      norm_num
      omega

/-- C6 (amended): a decodable `registered` message whose `player_id` and `chips` are the integer
literals `i` and `c`, both of absolute value at most `2^53`, sets `playerID` to `i` and `chips`
to `c`. -/
theorem registered_sets_identity (env : Env) (p : PokerClient) (ms : List (String × JSON))
    (i c : Int) (ht : JSON.member ms "type" = some (.str "registered"))
    (hi : JSON.member ms "player_id" = some (.num (.int i)))
    (hc : JSON.member ms "chips" = some (.num (.int c)))
    (hu : (json.UnmarshalMap (.obj ms)).isSome = true)
    (hib : i.natAbs ≤ 2 ^ 53) (hcb : c.natAbs ≤ 2 ^ 53) :
    (p.handleMessage env (some (.obj ms))).playerID = i ∧
    (p.handleMessage env (some (.obj ms))).chips = c := by
  cases hm : json.UnmarshalMap (.obj ms) with
  | none => rw [hm] at hu; cases hu
  | some msgMap =>
    have htag : msgTag (some (.obj ms)) = some "registered" := by simp only [msgTag, ht]
    have hnum : ∀ key (n : Int), JSON.member ms key = some (.num (.int n)) → n.natAbs ≤ 2 ^ 53 →
        (Iface.index msgMap key).assertFloat64.1.toInt env.intOverflow = n := by
      intro key n hkey hn
      have hl := lookup_decodeMembers key ms msgMap hm
      simp only [hkey] at hl
      obtain ⟨v, hv1, hv2⟩ := hl
      have hf := int_float64_int env.intOverflow n hn
      cases hfl : (json.Number.int n).toFloat64 with
      | none => simp [hfl] at hf
      | some f =>
        simp only [hfl, Option.map_some', Option.some.injEq] at hf
        simp only [json.decodeValue, hfl, Option.some.injEq] at hv1
        subst hv1
        simp only [Iface.index, hv2, Option.getD_some, Iface.assertFloat64, hf]
    rw [handleMessage_tagged env p (.obj ms) "registered" msgMap hm htag]
    have h1 : ("registered" : String) ≠ "welcome" := by decide
    simp only [if_neg h1, if_true]
    exact ⟨hnum "player_id" i hi hib, hnum "chips" c hc hcb⟩

/-! ## `Disconnect` -/

/-- C8: `Disconnect` is idempotent.  A second call leaves the session of the first call and has
an empty trace; on a session that is not connected the call is a no-op; on a connected
session the flag becomes false and, the session holding a connection, that connection is
closed by exactly one `Close`. -/
theorem Disconnect_idempotent (p : PokerClient) :
    p.Disconnect.1.Disconnect = (p.Disconnect.1, []) ∧
    (p.isConnected = false → p.Disconnect = (p, [])) ∧
    (p.isConnected = true →
      p.Disconnect.1.isConnected = false ∧
      ∀ c, p.conn = some c →
        p.Disconnect.1.conn = some { c with closed := true } ∧ closes p.Disconnect.2 = 1) := by
  cases hc : p.isConnected with
  | false =>
    have h : p.Disconnect = (p, []) := by simp [PokerClient.Disconnect, hc]
    refine ⟨?_, fun _ => h, fun h' => ?_⟩
    · rw [h]
      exact h
    · cases h'
  | true =>
    cases hconn : p.conn with
    | none =>
      have h : p.Disconnect =
          ({ p with isConnected := false }, [Event.print "Disconnected from server\n"]) := by
        simp [PokerClient.Disconnect, hc, hconn]
      refine ⟨?_, fun h' => ?_, fun _ => ⟨?_, fun c h' => ?_⟩⟩
      · rw [h]
        simp [PokerClient.Disconnect]
      · cases h'
      · rw [h]
      · cases h'
    | some c =>
      have h : p.Disconnect =
          ({ p with isConnected := false, conn := some { c with closed := true } },
            [Event.close, Event.print "Disconnected from server\n"]) := by
        simp [PokerClient.Disconnect, hc, hconn]
      refine ⟨?_, fun h' => ?_, fun _ => ⟨?_, fun c' h' => ?_⟩⟩
      · rw [h]
        simp [PokerClient.Disconnect]
      · cases h'
      · rw [h]
      · simp only [Option.some.injEq] at h'
        subst h'
        rw [h]
        exact ⟨rfl, rfl⟩

/-! ## Counterexamples and instances -/

/-- C1 fails as stated: for `n = 2^63` the line `raise 9223372036854775808` is answered with the
invalid-amount notice and no message is written. -/
theorem raise_amount_out_of_range :
    mainInputStep connectedClient ("raise " ++ toString (9223372036854775808 : Nat)) =
      some ([Event.print "Invalid amount: 9223372036854775808\n"], true) ∧
    sent [Event.print "Invalid amount: 9223372036854775808\n"] = [] := by
  decide

/-- C1 (amended), instance: the line `raise 25`. -/
theorem raise_sends_amount_witness :
    (25 : Nat) < 2 ^ 63 ∧
    ∃ es, mainInputStep connectedClient ("raise " ++ toString (25 : Nat)) = some (es, true) ∧
      sent es = [[("type", .str "action"), ("action", .str "raise"), ("amount", .int (25 : Nat))]] :=
  ⟨by norm_num, raise_sends_amount connectedClient _ rfl 25 (by norm_num)⟩

/-- C2 fails as stated: the line `raise -5` is not rejected, it writes a `raise` message with
amount `-5`. -/
theorem raise_negative_is_sent :
    mainInputStep connectedClient "raise -5" =
      some ([Event.write [("type", .str "action"), ("action", .str "raise"), ("amount", .int (-5))]],
        true) := by
  decide

/-- The text `abc` is not an integer. -/
theorem abc_not_int (v : Int) : ¬ IsIntText "abc" v := by
  rintro ⟨digits, _, hall, h⟩
  have ha : ('a' : Char) ∉ digits := fun hm => absurd (hall _ hm) (by decide)
  have hb : ('b' : Char) ∉ digits := fun hm => absurd (hall _ hm) (by decide)
  have hdata : ("abc" : String).data = ['a', 'b', 'c'] := rfl
  rw [hdata] at h
  rcases h with ⟨h, _⟩ | ⟨h, _⟩ | ⟨h, _⟩
  · exact ha (by rw [← h]; simp)
  · exact hb (by simp at h)
  · exact hb (by simp at h)

/-- C2 (amended), instance: the line `raise abc`. -/
theorem raise_rejected_sends_nothing_witness :
    mainInputStep connectedClient ("raise " ++ "abc") =
      some ([Event.print "Usage: raise <amount>\n"], true) ∨
    mainInputStep connectedClient ("raise " ++ "abc") =
      some ([Event.print ("Invalid amount: " ++ "abc" ++ "\n")], true) :=
  raise_rejected_sends_nothing connectedClient "abc" (fun v h => absurd h (abc_not_int v))

/-- C3, instance: `fold` on a connected session. -/
theorem plain_action_exact_word_witness :
    (∃ es, mainInputStep connectedClient "fold" = some (es, true) ∧
      sent es = [[("type", .str "action"), ("action", .str "fold")]] ∧
      ∀ msg ∈ sent es, msg.get "amount" = none) ∧
    (∀ suffix : String, suffix ≠ "" →
      mainInputStep connectedClient ("fold" ++ suffix) =
        some ([Event.print "Unknown command. Type \x27quit\x27 to exit.\n"], true)) :=
  plain_action_exact_word connectedClient _ rfl "fold" (Or.inl rfl)

/-- C4, instance: the line `ready` on a connected session. -/
theorem ready_message_iff_witness :
    ∃ es, mainInputStep connectedClient "ready" = some (es, true) ∧
      sent es = [[("type", .str "ready"), ("ready", .bool true)]] :=
  (ready_message_iff connectedClient _ rfl).2.1

/-- C5, instance: a snapshot with pot and players followed by
one without them leaves no pot and no players. -/
theorem game_state_replaced_wholesale_witness :
    (((NewPokerClient "alice").handleMessage plainEnv (some firstState)).handleMessage plainEnv
      (some secondState)).gameState =
      { MsgType := "game_state", Stage := 3, CurrentPlayer := 0, DealerPosition := 1,
        Players := [], Pot := 0 } :=
  game_state_replaced_wholesale plainEnv (NewPokerClient "alice") (some firstState) secondState _
    (by decide) (by decide) (by decide)

/-- C6 fails as stated: `player_id = 2^53 + 1` is stored as `2^53`. -/
theorem registered_large_id_rounded :
    ((NewPokerClient "alice").handleMessage plainEnv
      (registeredMsg 9007199254740993 1000)).playerID = 9007199254740992 ∧
    (9007199254740992 : Int) ≠ 9007199254740993 := by
  decide

/-- C6 (amended), instance: `player_id = 7`, `chips = 1000`. -/
theorem registered_sets_identity_witness :
    ((NewPokerClient "alice").handleMessage plainEnv (registeredMsg 7 1000)).playerID = 7 ∧
    ((NewPokerClient "alice").handleMessage plainEnv (registeredMsg 7 1000)).chips = 1000 :=
  registered_sets_identity plainEnv (NewPokerClient "alice")
    [("type", .str "registered"), ("player_id", .num (.int 7)), ("chips", .num (.int 1000))]
    7 1000 rfl rfl rfl (by decide) (by decide) (by decide)

/-- C7 fails as stated: after `welcome` has assigned 7, a second `welcome` assigns 9. -/
theorem playerID_reassigned :
    ((NewPokerClient "alice").handleMessage plainEnv (welcomeMsg 7)).playerID = 7 ∧
    (((NewPokerClient "alice").handleMessage plainEnv (welcomeMsg 7)).handleMessage plainEnv
      (welcomeMsg 9)).playerID = 9 := by
  decide

/-- C7 (amended), instance: a snapshot, a result and an untagged
message after the assignment of 7. -/
theorem playerID_kept_without_assignment_witness :
    (((NewPokerClient "alice").handleMessage plainEnv (welcomeMsg 7)).handleAll plainEnv
      [some firstState, resultMsg, untaggedMsg]).playerID =
      ((NewPokerClient "alice").handleMessage plainEnv (welcomeMsg 7)).playerID :=
  playerID_kept_without_assignment plainEnv _ [some firstState, resultMsg, untaggedMsg]
    (by decide)

/-- C8, instance: a connected session is closed once, and the second
call does nothing. -/
theorem Disconnect_idempotent_witness :
    connectedClient.Disconnect.1.Disconnect = (connectedClient.Disconnect.1, []) ∧
    connectedClient.Disconnect.1.isConnected = false ∧
    closes connectedClient.Disconnect.2 = 1 :=
  ⟨(Disconnect_idempotent connectedClient).1,
    ((Disconnect_idempotent connectedClient).2.2 rfl).1,
    (((Disconnect_idempotent connectedClient).2.2 rfl).2 _ rfl).2⟩

/-- C9, instance: a `game_result` message. -/
theorem presentation_message_frame_witness :
    connectedClient.handleMessage plainEnv resultMsg = connectedClient :=
  presentation_message_frame plainEnv connectedClient resultMsg "game_result" (by decide)
    (Or.inl rfl)

/-- C10, instance: bytes that are not JSON, then a `registered`
message. -/
theorem undecodable_message_dropped_witness :
    connectedClient.handleAll plainEnv [none, registeredMsg 7 1000] =
      connectedClient.handleMessage plainEnv (registeredMsg 7 1000) :=
  (undecodable_message_dropped plainEnv connectedClient none (Or.inl rfl)).2.1 _

end Poker
